import Mathlib

/-!
Package cmp: Min, Max, MinFunc, MaxFunc.

A shallow embedding of `cmp.go`.  The generic parameter `T constraints.Ordered`
is a type together with the three operators the code applies to it (`<`, `>`
and `!=`); a variadic `ys ...T` is a `List T`; a comparator
`cmp func(x, y T) int` is a function into `Int`, of which the code only reads
the sign.
-/

namespace Cmp

/-! ## Data model -/

/-- The operators of a `constraints.Ordered` type that `cmp.go` uses:
`x < y`, `x > y` and `x != y`. -/
structure Ordered (T : Type) where
  /-- The operator `x < y`. -/
  lt : T → T → Bool
  /-- The operator `x > y`. -/
  gt : T → T → Bool
  /-- The operator `x != y`. -/
  ne : T → T → Bool

/-- The operators of a totally ordered type (Go integers and strings): `<`, `>`
and `!=` are those of the order. -/
def linearOrdered (T : Type) [LinearOrder T] : Ordered T where
  lt := fun a b => decide (a < b)
  gt := fun a b => decide (a > b)
  ne := fun a b => decide (a ≠ b)

/-- A floating-point type cut down to what the comparisons of `cmp.go` can
tell apart: a NaN, negative zero, and the numbers `num z` (`num 0` is positive
zero). -/
inductive Float64 where
  | nan : Float64
  | negZero : Float64
  | num : Int → Float64
  deriving DecidableEq, Repr

/-- The number a non-NaN float stands for; both zeros stand for 0. -/
def Float64.value : Float64 → Option Int
  | .nan => none
  | .negZero => some 0
  | .num z => some z

/-- IEEE comparison `x < y`: false as soon as an operand is NaN. -/
def Float64.lt (x y : Float64) : Bool :=
  match x.value, y.value with
  | some a, some b => decide (a < b)
  | _, _ => false

/-- IEEE comparison `x != y`: true as soon as an operand is NaN; the two zeros
are equal. -/
def Float64.ne (x y : Float64) : Bool :=
  match x.value, y.value with
  | some a, some b => decide (a ≠ b)
  | _, _ => true

/-- The operators of the floating-point type; `x > y` is `y < x`. -/
def float64Ordered : Ordered Float64 where
  lt := Float64.lt
  gt := fun a b => Float64.lt b a
  ne := Float64.ne

/-- The floating-point behaviour of an operator set: every comparison `<` or `>`
with an operand `a` such that `a != a` (a NaN) is false. -/
def NaNUnordered {T : Type} (o : Ordered T) : Prop :=
  ∀ a b : T, o.ne a a = true →
    o.lt a b = false ∧ o.lt b a = false ∧ o.gt a b = false ∧ o.gt b a = false

/-- A three-way comparator on pairs that looks at the first field only, on
unbounded integers (the shape of the test's `S.cmp`, `s.a - s2.a`). -/
def cmpFirst (s s2 : Int × String) : Int :=
  s.1 - s2.1

/-- Go's `int` arithmetic on a 64-bit platform: the two's-complement value in
`[-2^63, 2^63)` that a mathematical result wraps to (2^63 is
9223372036854775808 and 2^64 is 18446744073709551616). -/
def wrapInt64 (z : Int) : Int :=
  (z + 9223372036854775808) % 18446744073709551616 - 9223372036854775808

/-- The values of Go's `int`: the integers of `[-2^63, 2^63)`. -/
def isInt64 (z : Int) : Prop :=
  -9223372036854775808 ≤ z ∧ z < 9223372036854775808

/-- The test's comparator `intCmp := func(x, y int) int { return x - y }`, the
subtraction being Go's wrapping one. -/
def intCmp (x y : Int) : Int :=
  wrapInt64 (x - y)

/-- Reference definition of Go 1.21's predeclared `min` on floating-point
operands, after its documented rules: if either operand is NaN the result is
NaN; otherwise the result is the smaller operand; and negative zero is lower
than positive zero. -/
def predeclaredMin (x y : Float64) : Float64 :=
  if Float64.ne x x then x
  else if Float64.ne y y then y
  else if Float64.lt x y then x
  else if Float64.lt y x then y
  else if x = Float64.negZero then x
  else y

/-! ## The functions of cmp.go -/

/-- Function `isNaN`: `return x != x`. -/
def isNaN {T : Type} (o : Ordered T) (x : T) : Bool :=
  o.ne x x

/-- Function `min`: `if x < y || isNaN(x) { return x }; return y`. -/
def min {T : Type} (o : Ordered T) (x y : T) : T :=
  if o.lt x y || isNaN o x then x else y

/-- Function `max`: `if x > y || isNaN(x) { return x }; return y`. -/
def max {T : Type} (o : Ordered T) (x y : T) : T :=
  if o.gt x y || isNaN o x then x else y

/-- Function `Min`: `for i := range ys { x = min(x, ys[i]) }; return x`. -/
def Min {T : Type} (o : Ordered T) (x : T) : List T → T
  | [] => x
  | y :: ys => Min o (min o x y) ys

/-- Function `Max`: `for i := range ys { x = max(x, ys[i]) }; return x`. -/
def Max {T : Type} (o : Ordered T) (x : T) : List T → T
  | [] => x
  | y :: ys => Max o (max o x y) ys

/-- Function `MinFunc`:
`for i := range ys { if cmp(ys[i], x) < 0 { x = ys[i] } }; return x`. -/
def MinFunc {T : Type} (cmp : T → T → Int) (x : T) : List T → T
  | [] => x
  | y :: ys => MinFunc cmp (if cmp y x < 0 then y else x) ys

/-- Function `MaxFunc`:
`for i := range ys { if cmp(ys[i], x) > 0 { x = ys[i] } }; return x`. -/
def MaxFunc {T : Type} (cmp : T → T → Int) (x : T) : List T → T
  | [] => x
  | y :: ys => MaxFunc cmp (if cmp y x > 0 then y else x) ys

/-! ## Helper lemmas -/

section Helpers

variable {T : Type}

theorem min_eq_or (o : Ordered T) (x y : T) : min o x y = x ∨ min o x y = y := by
  unfold min
  split
  · exact Or.inl rfl
  · exact Or.inr rfl

theorem max_eq_or (o : Ordered T) (x y : T) : max o x y = x ∨ max o x y = y := by
  unfold max
  split
  · exact Or.inl rfl
  · exact Or.inr rfl

theorem Min_sel (o : Ordered T) (x : T) (ys : List T) :
    Min o x ys = x ∨ Min o x ys ∈ ys := by
  induction ys generalizing x with
  | nil => exact Or.inl rfl
  | cons y ys ih =>
    show Min o (min o x y) ys = x ∨ Min o (min o x y) ys ∈ y :: ys
    rcases ih (min o x y) with h | h
    · rcases min_eq_or o x y with hx | hy
      · exact Or.inl (h.trans hx)
      · exact Or.inr (by rw [h, hy]; exact List.mem_cons_self _ _)
    · exact Or.inr (List.mem_cons_of_mem _ h)

theorem Max_sel (o : Ordered T) (x : T) (ys : List T) :
    Max o x ys = x ∨ Max o x ys ∈ ys := by
  induction ys generalizing x with
  | nil => exact Or.inl rfl
  | cons y ys ih =>
    show Max o (max o x y) ys = x ∨ Max o (max o x y) ys ∈ y :: ys
    rcases ih (max o x y) with h | h
    · rcases max_eq_or o x y with hx | hy
      · exact Or.inl (h.trans hx)
      · exact Or.inr (by rw [h, hy]; exact List.mem_cons_self _ _)
    · exact Or.inr (List.mem_cons_of_mem _ h)

theorem isNaN_linearOrdered [LinearOrder T] (x : T) :
    isNaN (linearOrdered T) x = false := by
  simp [isNaN, linearOrdered]

theorem min_linearOrdered [LinearOrder T] (x y : T) :
    min (linearOrdered T) x y = if x < y then x else y := by
  simp [min, isNaN, linearOrdered]

theorem max_linearOrdered [LinearOrder T] (x y : T) :
    max (linearOrdered T) x y = if x > y then x else y := by
  simp [max, isNaN, linearOrdered]

theorem min_linearOrdered_le [LinearOrder T] (x y : T) :
    min (linearOrdered T) x y ≤ x ∧ min (linearOrdered T) x y ≤ y := by
  rw [min_linearOrdered]
  split
  · next h => exact ⟨le_refl _, le_of_lt h⟩
  · next h => exact ⟨not_lt.mp h, le_refl _⟩

theorem max_linearOrdered_ge [LinearOrder T] (x y : T) :
    x ≤ max (linearOrdered T) x y ∧ y ≤ max (linearOrdered T) x y := by
  rw [max_linearOrdered]
  split
  · next h => exact ⟨le_refl _, le_of_lt h⟩
  · next h => exact ⟨not_lt.mp h, le_refl _⟩

theorem Min_linearOrdered_le [LinearOrder T] (x : T) (ys : List T) :
    Min (linearOrdered T) x ys ≤ x ∧ ∀ y ∈ ys, Min (linearOrdered T) x ys ≤ y := by
  induction ys generalizing x with
  | nil => exact ⟨le_refl _, fun y hy => absurd hy (List.not_mem_nil y)⟩
  | cons z zs ih =>
    show Min (linearOrdered T) (min (linearOrdered T) x z) zs ≤ x ∧
      ∀ y ∈ z :: zs, Min (linearOrdered T) (min (linearOrdered T) x z) zs ≤ y
    obtain ⟨h1, h2⟩ := ih (min (linearOrdered T) x z)
    obtain ⟨hx, hz⟩ := min_linearOrdered_le x z
    refine ⟨le_trans h1 hx, fun y hy => ?_⟩
    rcases List.mem_cons.mp hy with rfl | hy
    · exact le_trans h1 hz
    · exact h2 y hy

theorem Max_linearOrdered_ge [LinearOrder T] (x : T) (ys : List T) :
    x ≤ Max (linearOrdered T) x ys ∧ ∀ y ∈ ys, y ≤ Max (linearOrdered T) x ys := by
  induction ys generalizing x with
  | nil => exact ⟨le_refl _, fun y hy => absurd hy (List.not_mem_nil y)⟩
  | cons z zs ih =>
    show x ≤ Max (linearOrdered T) (max (linearOrdered T) x z) zs ∧
      ∀ y ∈ z :: zs, y ≤ Max (linearOrdered T) (max (linearOrdered T) x z) zs
    obtain ⟨h1, h2⟩ := ih (max (linearOrdered T) x z)
    obtain ⟨hx, hz⟩ := max_linearOrdered_ge x z
    refine ⟨le_trans hx h1, fun y hy => ?_⟩
    rcases List.mem_cons.mp hy with rfl | hy
    · exact le_trans hz h1
    · exact h2 y hy

theorem isNaN_min (o : Ordered T) (ho : NaNUnordered o) (x y : T)
    (h : isNaN o x = true ∨ isNaN o y = true) : isNaN o (min o x y) = true := by
  unfold min
  by_cases hx : isNaN o x = true
  · simp [hx]
  · have hy : isNaN o y = true := h.resolve_left hx
    have hlt : o.lt x y = false := (ho y x hy).2.1
    simp [hlt, hx, hy]

theorem isNaN_max (o : Ordered T) (ho : NaNUnordered o) (x y : T)
    (h : isNaN o x = true ∨ isNaN o y = true) : isNaN o (max o x y) = true := by
  unfold max
  by_cases hx : isNaN o x = true
  · simp [hx]
  · have hy : isNaN o y = true := h.resolve_left hx
    have hgt : o.gt x y = false := (ho y x hy).2.2.2
    simp [hgt, hx, hy]

theorem float64Ordered_NaNUnordered : NaNUnordered float64Ordered := by
  intro a b h
  cases a with
  | nan => cases b <;> simp [float64Ordered, Float64.lt, Float64.value]
  | negZero => simp [float64Ordered, Float64.ne, Float64.value] at h
  | num z => simp [float64Ordered, Float64.ne, Float64.value] at h

theorem MinFunc_append (cmp : T → T → Int) (x : T) (ys zs : List T) :
    MinFunc cmp x (ys ++ zs) = MinFunc cmp (MinFunc cmp x ys) zs := by
  induction ys generalizing x with
  | nil => rfl
  | cons y ys ih => exact ih _

theorem MinFunc_snoc (cmp : T → T → Int) (x : T) (ys : List T) (y : T) :
    MinFunc cmp x (ys ++ [y]) =
      if cmp y (MinFunc cmp x ys) < 0 then y else MinFunc cmp x ys := by
  rw [MinFunc_append]
  rfl

theorem MinFunc_of_no_improvement (cmp : T → T → Int) (x : T) (zs : List T)
    (h : ∀ z ∈ zs, 0 ≤ cmp z x) : MinFunc cmp x zs = x := by
  induction zs with
  | nil => rfl
  | cons z zs ih =>
    have hz : ¬ cmp z x < 0 := not_lt.mpr (h z (List.mem_cons_self _ _))
    show MinFunc cmp (if cmp z x < 0 then z else x) zs = x
    rw [if_neg hz]
    exact ih (fun w hw => h w (List.mem_cons_of_mem _ hw))

theorem MaxFunc_eq_MinFunc_flip (cmp : T → T → Int)
    (hanti : ∀ a b, cmp a b < 0 ↔ cmp b a > 0) (x : T) (ys : List T) :
    MaxFunc cmp x ys = MinFunc (fun a b => cmp b a) x ys := by
  induction ys generalizing x with
  | nil => rfl
  | cons y ys ih =>
    show MaxFunc cmp (if cmp y x > 0 then y else x) ys =
      MinFunc (fun a b => cmp b a) (if cmp x y < 0 then y else x) ys
    rw [ih]
    by_cases h : cmp x y < 0
    · rw [if_pos h, if_pos ((hanti x y).mp h)]
    · rw [if_neg h, if_neg (fun h2 => h ((hanti x y).mpr h2))]

theorem cmp_pos_of_improved (cmp : T → T → Int)
    (hanti : ∀ a b, cmp a b < 0 ↔ cmp b a > 0)
    (htrans : ∀ a b c, cmp a b ≤ 0 → cmp b c ≤ 0 → cmp a c ≤ 0)
    {e y r : T} (h1 : cmp y r < 0) (h2 : 0 ≤ cmp e r) : 0 < cmp e y := by
  by_contra hc
  have hey : cmp e y ≤ 0 := not_lt.mp hc
  have her : cmp e r ≤ 0 := htrans e y r hey (le_of_lt h1)
  have hre : cmp r e ≤ 0 := by
    have h3 := hanti e r
    by_contra h4
    have h5 : cmp e r < 0 := h3.mpr (not_le.mp h4)
    omega
  have hry : cmp r y ≤ 0 := htrans r e y hre hey
  have h6 : cmp r y > 0 := (hanti y r).mp h1
  omega

theorem MinFunc_first (cmp : T → T → Int)
    (hanti : ∀ a b, cmp a b < 0 ↔ cmp b a > 0)
    (htrans : ∀ a b c, cmp a b ≤ 0 → cmp b c ≤ 0 → cmp a c ≤ 0)
    (x : T) (ys : List T) :
    ∃ i : Nat, (x :: ys)[i]? = some (MinFunc cmp x ys) ∧
      (∀ e ∈ x :: ys, 0 ≤ cmp e (MinFunc cmp x ys)) ∧
      ∀ (j : Nat) (e : T), j < i → (x :: ys)[j]? = some e → 0 < cmp e (MinFunc cmp x ys) := by
  induction ys using List.reverseRecOn with
  | nil =>
    refine ⟨0, rfl, fun e he => ?_, fun j e hj _ => absurd hj (Nat.not_lt_zero j)⟩
    have hex : e = x := by simpa using he
    subst hex
    have h := hanti e e
    show 0 ≤ cmp e e
    by_contra hc
    have h1 : cmp e e < 0 := not_le.mp hc
    have h2 := h.mp h1
    omega
  | append_singleton ys y ih =>
    obtain ⟨i, hi, hmin, hbefore⟩ := ih
    have hilen : i < (x :: ys).length := by
      by_contra hc
      rw [List.getElem?_eq_none (not_lt.mp hc)] at hi
      exact Option.noConfusion hi
    rw [MinFunc_snoc]
    by_cases hy : cmp y (MinFunc cmp x ys) < 0
    · rw [if_pos hy]
      have hall : ∀ e ∈ x :: ys, 0 < cmp e y :=
        fun e he => cmp_pos_of_improved cmp hanti htrans hy (hmin e he)
      have hyy : cmp y y = 0 := by
        have h := hanti y y
        by_contra hc
        rcases lt_or_gt_of_ne hc with h1 | h1
        · have := h.mp h1; omega
        · have := h.mpr h1; omega
      refine ⟨(x :: ys).length, ?_, fun e he => ?_, fun j e hj hje => ?_⟩
      · rw [← List.cons_append, List.getElem?_append_right (le_refl _)]
        simp
      · rw [← List.cons_append, List.mem_append] at he
        rcases he with he | he
        · exact le_of_lt (hall e he)
        · have hey : e = y := by simpa using he
          rw [hey, hyy]
      · rw [← List.cons_append, List.getElem?_append_left hj] at hje
        exact hall e (List.getElem?_mem hje)
    · rw [if_neg hy]
      refine ⟨i, ?_, fun e he => ?_, fun j e hj hje => ?_⟩
      · rw [← List.cons_append, List.getElem?_append_left hilen]
        exact hi
      · rw [← List.cons_append, List.mem_append] at he
        rcases he with he | he
        · exact hmin e he
        · have hey : e = y := by simpa using he
          rw [hey]
          exact not_lt.mp hy
      · rw [← List.cons_append, List.getElem?_append_left (lt_trans hj hilen)] at hje
        exact hbefore j e hj hje

theorem MinFunc_eq_Min_linearOrdered [LinearOrder T] (cmp : T → T → Int)
    (h : ∀ a b, cmp a b < 0 ↔ a < b) (x : T) (ys : List T) :
    MinFunc cmp x ys = Min (linearOrdered T) x ys := by
  induction ys generalizing x with
  | nil => rfl
  | cons y ys ih =>
    show MinFunc cmp (if cmp y x < 0 then y else x) ys =
      Min (linearOrdered T) (min (linearOrdered T) x y) ys
    rw [ih, min_linearOrdered]
    congr 1
    by_cases hyx : y < x
    · rw [if_pos ((h y x).mpr hyx), if_neg (not_lt_of_gt hyx)]
    · rw [if_neg (fun hc => hyx ((h y x).mp hc))]
      by_cases hxy : x < y
      · rw [if_pos hxy]
      · rw [if_neg hxy]
        exact le_antisymm (not_lt.mp hyx) (not_lt.mp hxy)

theorem MaxFunc_eq_Max_linearOrdered [LinearOrder T] (cmp : T → T → Int)
    (h : ∀ a b, cmp a b > 0 ↔ a > b) (x : T) (ys : List T) :
    MaxFunc cmp x ys = Max (linearOrdered T) x ys := by
  induction ys generalizing x with
  | nil => rfl
  | cons y ys ih =>
    show MaxFunc cmp (if cmp y x > 0 then y else x) ys =
      Max (linearOrdered T) (max (linearOrdered T) x y) ys
    rw [ih, max_linearOrdered]
    congr 1
    by_cases hyx : y > x
    · rw [if_pos ((h y x).mpr hyx), if_neg (not_lt_of_gt hyx)]
    · rw [if_neg (fun hc => hyx ((h y x).mp hc))]
      by_cases hxy : x > y
      · rw [if_pos hxy]
      · rw [if_neg hxy]
        exact le_antisymm (not_lt.mp hxy) (not_lt.mp hyx)

theorem Min_linearOrdered_le_Min [LinearOrder T] (x : T) (ys zs : List T)
    (hsub : ∀ z ∈ zs, z ∈ ys) :
    Min (linearOrdered T) x ys ≤ Min (linearOrdered T) x zs := by
  obtain ⟨hx, hys⟩ := Min_linearOrdered_le x ys
  rcases Min_sel (linearOrdered T) x zs with h | h
  · rw [h]
    exact hx
  · exact hys _ (hsub _ h)

theorem Max_linearOrdered_le_Max [LinearOrder T] (x : T) (ys zs : List T)
    (hsub : ∀ z ∈ zs, z ∈ ys) :
    Max (linearOrdered T) x zs ≤ Max (linearOrdered T) x ys := by
  obtain ⟨hx, hys⟩ := Max_linearOrdered_ge x ys
  rcases Max_sel (linearOrdered T) x zs with h | h
  · rw [h]
    exact hx
  · exact hys _ (hsub _ h)

theorem MinFunc_sel (cmp : T → T → Int) (x : T) (ys : List T) :
    MinFunc cmp x ys = x ∨ MinFunc cmp x ys ∈ ys := by
  induction ys generalizing x with
  | nil => exact Or.inl rfl
  | cons y ys ih =>
    show MinFunc cmp (if cmp y x < 0 then y else x) ys = x ∨
      MinFunc cmp (if cmp y x < 0 then y else x) ys ∈ y :: ys
    rcases ih (if cmp y x < 0 then y else x) with h | h
    · by_cases hc : cmp y x < 0
      · rw [if_pos hc] at h
        exact Or.inr (by rw [if_pos hc, h]; exact List.mem_cons_self _ _)
      · rw [if_neg hc] at h
        exact Or.inl (by rw [if_neg hc, h])
    · exact Or.inr (List.mem_cons_of_mem _ h)

theorem MaxFunc_sel (cmp : T → T → Int) (x : T) (ys : List T) :
    MaxFunc cmp x ys = x ∨ MaxFunc cmp x ys ∈ ys := by
  induction ys generalizing x with
  | nil => exact Or.inl rfl
  | cons y ys ih =>
    show MaxFunc cmp (if cmp y x > 0 then y else x) ys = x ∨
      MaxFunc cmp (if cmp y x > 0 then y else x) ys ∈ y :: ys
    rcases ih (if cmp y x > 0 then y else x) with h | h
    · by_cases hc : cmp y x > 0
      · rw [if_pos hc] at h
        exact Or.inr (by rw [if_pos hc, h]; exact List.mem_cons_self _ _)
      · rw [if_neg hc] at h
        exact Or.inl (by rw [if_neg hc, h])
    · exact Or.inr (List.mem_cons_of_mem _ h)

theorem MinFunc_congr (cmp cmp2 : T → T → Int) (x : T) (ys : List T)
    (h : ∀ a ∈ x :: ys, ∀ b ∈ x :: ys, (cmp a b < 0 ↔ cmp2 a b < 0)) :
    MinFunc cmp x ys = MinFunc cmp2 x ys := by
  induction ys generalizing x with
  | nil => rfl
  | cons y ys ih =>
    show MinFunc cmp (if cmp y x < 0 then y else x) ys =
      MinFunc cmp2 (if cmp2 y x < 0 then y else x) ys
    have hyx : cmp y x < 0 ↔ cmp2 y x < 0 :=
      h y (List.mem_cons_of_mem _ (List.mem_cons_self _ _)) x (List.mem_cons_self _ _)
    have hsub : ∀ (w : T), ∀ a ∈ w :: ys, (w = x ∨ w = y) → a ∈ x :: y :: ys := by
      intro w a ha hw
      rcases List.mem_cons.mp ha with rfl | ha
      · rcases hw with rfl | rfl
        · exact List.mem_cons_self _ _
        · exact List.mem_cons_of_mem _ (List.mem_cons_self _ _)
      · exact List.mem_cons_of_mem _ (List.mem_cons_of_mem _ ha)
    by_cases hc : cmp y x < 0
    · rw [if_pos hc, if_pos (hyx.mp hc)]
      exact ih y (fun a ha b hb =>
        h a (hsub y a ha (Or.inr rfl)) b (hsub y b hb (Or.inr rfl)))
    · rw [if_neg hc, if_neg (fun h2 => hc (hyx.mpr h2))]
      exact ih x (fun a ha b hb =>
        h a (hsub x a ha (Or.inl rfl)) b (hsub x b hb (Or.inl rfl)))

theorem MaxFunc_congr (cmp cmp2 : T → T → Int) (x : T) (ys : List T)
    (h : ∀ a ∈ x :: ys, ∀ b ∈ x :: ys, (cmp a b > 0 ↔ cmp2 a b > 0)) :
    MaxFunc cmp x ys = MaxFunc cmp2 x ys := by
  induction ys generalizing x with
  | nil => rfl
  | cons y ys ih =>
    show MaxFunc cmp (if cmp y x > 0 then y else x) ys =
      MaxFunc cmp2 (if cmp2 y x > 0 then y else x) ys
    have hyx : cmp y x > 0 ↔ cmp2 y x > 0 :=
      h y (List.mem_cons_of_mem _ (List.mem_cons_self _ _)) x (List.mem_cons_self _ _)
    have hsub : ∀ (w : T), ∀ a ∈ w :: ys, (w = x ∨ w = y) → a ∈ x :: y :: ys := by
      intro w a ha hw
      rcases List.mem_cons.mp ha with rfl | ha
      · rcases hw with rfl | rfl
        · exact List.mem_cons_self _ _
        · exact List.mem_cons_of_mem _ (List.mem_cons_self _ _)
      · exact List.mem_cons_of_mem _ (List.mem_cons_of_mem _ ha)
    by_cases hc : cmp y x > 0
    · rw [if_pos hc, if_pos (hyx.mp hc)]
      exact ih y (fun a ha b hb =>
        h a (hsub y a ha (Or.inr rfl)) b (hsub y b hb (Or.inr rfl)))
    · rw [if_neg hc, if_neg (fun h2 => hc (hyx.mpr h2))]
      exact ih x (fun a ha b hb =>
        h a (hsub x a ha (Or.inl rfl)) b (hsub x b hb (Or.inl rfl)))

theorem wrapInt64_of_isInt64 (z : Int) (h : isInt64 z) : wrapInt64 z = z := by
  unfold isInt64 at h
  unfold wrapInt64
  omega

theorem min_float64_eq_predeclaredMin (x y : Float64)
    (h : ¬ (x = Float64.negZero ∧ y = Float64.num 0)) :
    min float64Ordered x y = predeclaredMin x y := by
  cases x with
  | nan => cases y <;> rfl
  | negZero =>
    cases y with
    | nan => rfl
    | negZero => rfl
    | num b =>
      have hb : b ≠ 0 := fun hb => h ⟨rfl, by rw [hb]⟩
      simp only [min, isNaN, predeclaredMin, float64Ordered, Float64.lt, Float64.ne,
        Float64.value]
      by_cases h1 : (0 : Int) < b
      · simp [h1]
      · have h2 : b < 0 := by omega
        simp [h1, h2]
  | num a =>
    cases y with
    | nan => rfl
    | negZero =>
      simp only [min, isNaN, predeclaredMin, float64Ordered, Float64.lt, Float64.ne,
        Float64.value]
      by_cases h1 : a < 0
      · simp [h1]
      · simp [h1]
    | num b =>
      simp only [min, isNaN, predeclaredMin, float64Ordered, Float64.lt, Float64.ne,
        Float64.value]
      by_cases h1 : a < b
      · simp [h1]
      · simp [h1]

end Helpers

/-! ## Min and Max on totally ordered types -/

/-- C1: on a totally ordered type, `Min x ys` is the least of the arguments: it
is `x` or an element of `ys`, and it is `≤ x` and `≤` every element of `ys`
(also when `ys` is empty). -/
theorem Min_is_least {T : Type} [LinearOrder T] (x : T) (ys : List T) :
    (Min (linearOrdered T) x ys = x ∨ Min (linearOrdered T) x ys ∈ ys) ∧
    Min (linearOrdered T) x ys ≤ x ∧
    ∀ y ∈ ys, Min (linearOrdered T) x ys ≤ y :=
  ⟨Min_sel _ x ys, Min_linearOrdered_le x ys⟩

/-- C2: on a totally ordered type, `Max x ys` is the greatest of the arguments:
it is `x` or an element of `ys`, and it is `≥ x` and `≥` every element of `ys`
(also when `ys` is empty). -/
theorem Max_is_greatest {T : Type} [LinearOrder T] (x : T) (ys : List T) :
    (Max (linearOrdered T) x ys = x ∨ Max (linearOrdered T) x ys ∈ ys) ∧
    Max (linearOrdered T) x ys ≥ x ∧
    ∀ y ∈ ys, Max (linearOrdered T) x ys ≥ y :=
  ⟨Max_sel _ x ys, Max_linearOrdered_ge x ys⟩

/-! ## NaN propagation -/

/-- C3: `Min` propagates NaN whatever its position: on a type whose comparisons
with a NaN are all false, if `x` is a NaN or some element of `ys` is a NaN, then
`Min x ys` is a NaN. -/
theorem Min_propagates_NaN {T : Type} (o : Ordered T) (ho : NaNUnordered o)
    (x : T) (ys : List T)
    (h : isNaN o x = true ∨ ∃ y ∈ ys, isNaN o y = true) :
    isNaN o (Min o x ys) = true := by
  induction ys generalizing x with
  | nil =>
    rcases h with h | ⟨y, hy, _⟩
    · exact h
    · exact absurd hy (List.not_mem_nil y)
  | cons z zs ih =>
    show isNaN o (Min o (min o x z) zs) = true
    apply ih
    rcases h with h | ⟨y, hy, hn⟩
    · exact Or.inl (isNaN_min o ho x z (Or.inl h))
    · rcases List.mem_cons.mp hy with rfl | hy
      · exact Or.inl (isNaN_min o ho x y (Or.inr hn))
      · exact Or.inr ⟨y, hy, hn⟩

/-- Witness of C3 on the floating-point model: a NaN in the middle of `ys`. -/
theorem Min_propagates_NaN_witness :
    (isNaN float64Ordered (Float64.num 1) = true ∨
      ∃ y ∈ [Float64.num 999, Float64.nan, Float64.num 3],
        isNaN float64Ordered y = true) ∧
    isNaN float64Ordered
      (Min float64Ordered (Float64.num 1)
        [Float64.num 999, Float64.nan, Float64.num 3]) = true :=
  ⟨Or.inr ⟨Float64.nan, by simp, rfl⟩,
   Min_propagates_NaN float64Ordered float64Ordered_NaNUnordered (Float64.num 1)
     [Float64.num 999, Float64.nan, Float64.num 3]
     (Or.inr ⟨Float64.nan, by simp, rfl⟩)⟩

/-- C4: `Max` propagates NaN whatever its position: on a type whose comparisons
with a NaN are all false, if `x` is a NaN or some element of `ys` is a NaN, then
`Max x ys` is a NaN. -/
theorem Max_propagates_NaN {T : Type} (o : Ordered T) (ho : NaNUnordered o)
    (x : T) (ys : List T)
    (h : isNaN o x = true ∨ ∃ y ∈ ys, isNaN o y = true) :
    isNaN o (Max o x ys) = true := by
  induction ys generalizing x with
  | nil =>
    rcases h with h | ⟨y, hy, _⟩
    · exact h
    · exact absurd hy (List.not_mem_nil y)
  | cons z zs ih =>
    show isNaN o (Max o (max o x z) zs) = true
    apply ih
    rcases h with h | ⟨y, hy, hn⟩
    · exact Or.inl (isNaN_max o ho x z (Or.inl h))
    · rcases List.mem_cons.mp hy with rfl | hy
      · exact Or.inl (isNaN_max o ho x y (Or.inr hn))
      · exact Or.inr ⟨y, hy, hn⟩

/-- Witness of C4 on the floating-point model: a NaN in the last position. -/
theorem Max_propagates_NaN_witness :
    (isNaN float64Ordered (Float64.num 1) = true ∨
      ∃ y ∈ [Float64.num 999, Float64.num 3, Float64.nan],
        isNaN float64Ordered y = true) ∧
    isNaN float64Ordered
      (Max float64Ordered (Float64.num 1)
        [Float64.num 999, Float64.num 3, Float64.nan]) = true :=
  ⟨Or.inr ⟨Float64.nan, by simp, rfl⟩,
   Max_propagates_NaN float64Ordered float64Ordered_NaNUnordered (Float64.num 1)
     [Float64.num 999, Float64.num 3, Float64.nan]
     (Or.inr ⟨Float64.nan, by simp, rfl⟩)⟩

/-! ## MinFunc and MaxFunc: the first minimal and the first maximal element -/

/-- C5: for a comparator whose sign is a consistent ordering, `MinFunc cmp x ys`
is the element at the lowest position of `x, ys[0], ys[1], ...` among the
minimal ones: it stands at a position `i`, no element compares below it, no
element at an earlier position is minimal, every element at an earlier
position compares strictly greater than it, and elements tied with it that come
later in the scan do not replace it. -/
theorem MinFunc_first_minimal {T : Type} (cmp : T → T → Int)
    (hanti : ∀ a b, cmp a b < 0 ↔ cmp b a > 0)
    (htrans : ∀ a b c, cmp a b ≤ 0 → cmp b c ≤ 0 → cmp a c ≤ 0)
    (x : T) (ys : List T) :
    ∃ i : Nat, (x :: ys)[i]? = some (MinFunc cmp x ys) ∧
      (∀ e ∈ x :: ys, cmp e (MinFunc cmp x ys) ≥ 0) ∧
      (∀ (j : Nat) (e : T), j < i → (x :: ys)[j]? = some e →
        ¬ ∀ e2 ∈ x :: ys, cmp e2 e ≥ 0) ∧
      (∀ (j : Nat) (e : T), j < i → (x :: ys)[j]? = some e →
        cmp e (MinFunc cmp x ys) > 0) ∧
      (∀ zs : List T, (∀ z ∈ zs, cmp z (MinFunc cmp x ys) = 0) →
        MinFunc cmp x (ys ++ zs) = MinFunc cmp x ys) := by
  obtain ⟨i, hi, hmin, hbefore⟩ := MinFunc_first cmp hanti htrans x ys
  refine ⟨i, hi, hmin, fun j e hj hje hall => ?_, hbefore, fun zs hzs => ?_⟩
  · have h1 : cmp e (MinFunc cmp x ys) > 0 := hbefore j e hj hje
    have h2 : cmp (MinFunc cmp x ys) e < 0 := (hanti _ _).mpr h1
    have h3 : cmp (MinFunc cmp x ys) e ≥ 0 := hall _ (List.getElem?_mem hi)
    omega
  · rw [MinFunc_append]
    exact MinFunc_of_no_improvement cmp _ zs (fun z hz => le_of_eq (hzs z hz).symm)

/-- Witness of C5 on the data of the test: the first of the two elements with
the least first field is returned. -/
theorem MinFunc_first_minimal_witness :
    MinFunc cmpFirst (1, "a") [(2, "a"), (1, "b"), (2, "b")] = (1, "a") ∧
    ∃ i : Nat, ((1, "a") :: [(2, "a"), (1, "b"), (2, "b")])[i]? =
        some (MinFunc cmpFirst (1, "a") [(2, "a"), (1, "b"), (2, "b")]) ∧
      (∀ e ∈ (1, "a") :: [(2, "a"), (1, "b"), (2, "b")],
        cmpFirst e (MinFunc cmpFirst (1, "a") [(2, "a"), (1, "b"), (2, "b")]) ≥ 0) ∧
      (∀ (j : Nat) (e : Int × String), j < i →
        ((1, "a") :: [(2, "a"), (1, "b"), (2, "b")])[j]? = some e →
        ¬ ∀ e2 ∈ (1, "a") :: [(2, "a"), (1, "b"), (2, "b")], cmpFirst e2 e ≥ 0) ∧
      (∀ (j : Nat) (e : Int × String), j < i →
        ((1, "a") :: [(2, "a"), (1, "b"), (2, "b")])[j]? = some e →
        cmpFirst e (MinFunc cmpFirst (1, "a") [(2, "a"), (1, "b"), (2, "b")]) > 0) ∧
      (∀ zs : List (Int × String),
        (∀ z ∈ zs,
          cmpFirst z (MinFunc cmpFirst (1, "a") [(2, "a"), (1, "b"), (2, "b")]) = 0) →
        MinFunc cmpFirst (1, "a") ([(2, "a"), (1, "b"), (2, "b")] ++ zs) =
          MinFunc cmpFirst (1, "a") [(2, "a"), (1, "b"), (2, "b")]) :=
  ⟨by decide,
   MinFunc_first_minimal cmpFirst
     (fun a b => by unfold cmpFirst; omega)
     (fun a b c => by unfold cmpFirst; omega)
     (1, "a") [(2, "a"), (1, "b"), (2, "b")]⟩

/-- C6: for a comparator whose sign is a consistent ordering, `MaxFunc cmp x ys`
is the element at the lowest position of `x, ys[0], ys[1], ...` among the
maximal ones: it stands at a position `i`, no element compares above it, no
element at an earlier position is maximal, and every element at an earlier
position compares strictly less than it. -/
theorem MaxFunc_first_maximal {T : Type} (cmp : T → T → Int)
    (hanti : ∀ a b, cmp a b < 0 ↔ cmp b a > 0)
    (htrans : ∀ a b c, cmp a b ≤ 0 → cmp b c ≤ 0 → cmp a c ≤ 0)
    (x : T) (ys : List T) :
    ∃ i : Nat, (x :: ys)[i]? = some (MaxFunc cmp x ys) ∧
      (∀ e ∈ x :: ys, cmp e (MaxFunc cmp x ys) ≤ 0) ∧
      (∀ (j : Nat) (e : T), j < i → (x :: ys)[j]? = some e →
        ¬ ∀ e2 ∈ x :: ys, cmp e2 e ≤ 0) ∧
      (∀ (j : Nat) (e : T), j < i → (x :: ys)[j]? = some e →
        cmp e (MaxFunc cmp x ys) < 0) := by
  rw [MaxFunc_eq_MinFunc_flip cmp hanti]
  obtain ⟨i, hi, hmin, hbefore⟩ :=
    MinFunc_first (fun a b => cmp b a) (fun a b => hanti b a)
      (fun a b c hab hbc => htrans c b a hbc hab) x ys
  have hlt : ∀ (j : Nat) (e : T), j < i → (x :: ys)[j]? = some e →
      cmp e (MinFunc (fun a b => cmp b a) x ys) < 0 :=
    fun j e hj hje => (hanti _ _).mpr (hbefore j e hj hje)
  refine ⟨i, hi, fun e he => ?_, fun j e hj hje hall => ?_, hlt⟩
  · have h1 : 0 ≤ cmp (MinFunc (fun a b => cmp b a) x ys) e := hmin e he
    by_contra hc
    have h2 : cmp (MinFunc (fun a b => cmp b a) x ys) e < 0 :=
      (hanti _ _).mpr (not_le.mp hc)
    omega
  · have h1 : cmp e (MinFunc (fun a b => cmp b a) x ys) < 0 := hlt j e hj hje
    have h2 : cmp (MinFunc (fun a b => cmp b a) x ys) e > 0 := (hanti _ _).mp h1
    have h3 : cmp (MinFunc (fun a b => cmp b a) x ys) e ≤ 0 :=
      hall _ (List.getElem?_mem hi)
    omega

/-- Witness of C6 on the data of the test: the first of the two elements with
the greatest first field is returned. -/
theorem MaxFunc_first_maximal_witness :
    MaxFunc cmpFirst (1, "a") [(2, "a"), (1, "b"), (2, "b")] = (2, "a") ∧
    ∃ i : Nat, ((1, "a") :: [(2, "a"), (1, "b"), (2, "b")])[i]? =
        some (MaxFunc cmpFirst (1, "a") [(2, "a"), (1, "b"), (2, "b")]) ∧
      (∀ e ∈ (1, "a") :: [(2, "a"), (1, "b"), (2, "b")],
        cmpFirst e (MaxFunc cmpFirst (1, "a") [(2, "a"), (1, "b"), (2, "b")]) ≤ 0) ∧
      (∀ (j : Nat) (e : Int × String), j < i →
        ((1, "a") :: [(2, "a"), (1, "b"), (2, "b")])[j]? = some e →
        ¬ ∀ e2 ∈ (1, "a") :: [(2, "a"), (1, "b"), (2, "b")], cmpFirst e2 e ≤ 0) ∧
      (∀ (j : Nat) (e : Int × String), j < i →
        ((1, "a") :: [(2, "a"), (1, "b"), (2, "b")])[j]? = some e →
        cmpFirst e (MaxFunc cmpFirst (1, "a") [(2, "a"), (1, "b"), (2, "b")]) < 0) :=
  ⟨by decide,
   MaxFunc_first_maximal cmpFirst
     (fun a b => by unfold cmpFirst; omega)
     (fun a b c => by unfold cmpFirst; omega)
     (1, "a") [(2, "a"), (1, "b"), (2, "b")]⟩

/-! ## Agreement of the comparator variants with Min and Max -/

/-- C7: on a totally ordered type, when `cmp a b < 0` exactly if `a < b`,
`MinFunc cmp x ys = Min x ys`. -/
theorem MinFunc_eq_Min {T : Type} [LinearOrder T] (cmp : T → T → Int)
    (h : ∀ a b, cmp a b < 0 ↔ a < b) (x : T) (ys : List T) :
    MinFunc cmp x ys = Min (linearOrdered T) x ys :=
  MinFunc_eq_Min_linearOrdered cmp h x ys

/-- Witness of C7 on the integers with the comparator `x - y`. -/
theorem MinFunc_eq_Min_witness :
    (∀ a b : Int, (fun x y : Int => x - y) a b < 0 ↔ a < b) ∧
    MinFunc (fun x y : Int => x - y) 0 [2, -9] = Min (linearOrdered Int) 0 [2, -9] :=
  ⟨fun a b => by show a - b < 0 ↔ a < b; omega,
   MinFunc_eq_Min (fun x y : Int => x - y)
     (fun a b => by show a - b < 0 ↔ a < b; omega) 0 [2, -9]⟩

/-- C8: on a totally ordered type, when `cmp a b > 0` exactly if `a > b`,
`MaxFunc cmp x ys = Max x ys`. -/
theorem MaxFunc_eq_Max {T : Type} [LinearOrder T] (cmp : T → T → Int)
    (h : ∀ a b, cmp a b > 0 ↔ a > b) (x : T) (ys : List T) :
    MaxFunc cmp x ys = Max (linearOrdered T) x ys :=
  MaxFunc_eq_Max_linearOrdered cmp h x ys

/-- Witness of C8 on the integers with the comparator `x - y`. -/
theorem MaxFunc_eq_Max_witness :
    (∀ a b : Int, (fun x y : Int => x - y) a b > 0 ↔ a > b) ∧
    MaxFunc (fun x y : Int => x - y) 0 [2, -9] = Max (linearOrdered Int) 0 [2, -9] :=
  ⟨fun a b => by show a - b > 0 ↔ a > b; omega,
   MaxFunc_eq_Max (fun x y : Int => x - y)
     (fun a b => by show a - b > 0 ↔ a > b; omega) 0 [2, -9]⟩

/-! ## Order independence of Min and Max -/

/-- C9: on a totally ordered type, `Min x ys` does not depend on the order of
`ys`: permutations of one another give the same result. -/
theorem Min_perm {T : Type} [LinearOrder T] (x : T) (ys zs : List T)
    (h : ys.Perm zs) :
    Min (linearOrdered T) x ys = Min (linearOrdered T) x zs :=
  le_antisymm
    (Min_linearOrdered_le_Min x ys zs (fun _ hz => h.mem_iff.mpr hz))
    (Min_linearOrdered_le_Min x zs ys (fun _ hz => h.mem_iff.mp hz))

/-- Witness of C9: two orders of the same integers. -/
theorem Min_perm_witness :
    [2, 1, 3].Perm [3, 2, 1] ∧
    Min (linearOrdered Int) 0 [2, 1, 3] = Min (linearOrdered Int) 0 [3, 2, 1] :=
  ⟨by decide, Min_perm (0 : Int) [2, 1, 3] [3, 2, 1] (by decide)⟩

/-- C10: on a totally ordered type, `Max x ys` does not depend on the order of
`ys`: permutations of one another give the same result. -/
theorem Max_perm {T : Type} [LinearOrder T] (x : T) (ys zs : List T)
    (h : ys.Perm zs) :
    Max (linearOrdered T) x ys = Max (linearOrdered T) x zs :=
  le_antisymm
    (Max_linearOrdered_le_Max x zs ys (fun _ hz => h.mem_iff.mp hz))
    (Max_linearOrdered_le_Max x ys zs (fun _ hz => h.mem_iff.mpr hz))

/-- Witness of C10: two orders of the same integers. -/
theorem Max_perm_witness :
    [2, 1, 3].Perm [3, 2, 1] ∧
    Max (linearOrdered Int) 0 [2, 1, 3] = Max (linearOrdered Int) 0 [3, 2, 1] :=
  ⟨by decide, Max_perm (0 : Int) [2, 1, 3] [3, 2, 1] (by decide)⟩

/-! ## Order sensitivity of MinFunc and MaxFunc on ties -/

/-- C11: `MinFunc` and `MaxFunc` depend on the order of `ys` when elements tie:
there are a type, a comparator whose sign is a consistent ordering (pairs
compared by their first field only), a value `x` and two lists that are
permutations of one another on which `MinFunc` differs, and likewise
`MaxFunc`. -/
theorem MinFunc_MaxFunc_order_sensitive :
    ∃ (T : Type) (cmp : T → T → Int),
      (∀ a b, cmp a b < 0 ↔ cmp b a > 0) ∧
      (∀ a b c, cmp a b ≤ 0 → cmp b c ≤ 0 → cmp a c ≤ 0) ∧
      (∃ (x : T) (ys zs : List T), ys.Perm zs ∧ MinFunc cmp x ys ≠ MinFunc cmp x zs) ∧
      (∃ (x : T) (ys zs : List T), ys.Perm zs ∧ MaxFunc cmp x ys ≠ MaxFunc cmp x zs) :=
  ⟨Int × String, cmpFirst,
   fun a b => by unfold cmpFirst; omega,
   fun a b c => by unfold cmpFirst; omega,
   ⟨(2, "x"), [(1, "a"), (1, "b")], [(1, "b"), (1, "a")],
     List.Perm.swap _ _ _, by decide⟩,
   ⟨(1, "x"), [(2, "a"), (2, "b")], [(2, "b"), (2, "a")],
     List.Perm.swap _ _ _, by decide⟩⟩

/-! ## No additional values -/

/-- C12: with no additional values the single argument comes back unchanged:
`Min x [] = x` and `Max x [] = x` for every operator set (NaN-like `x`
included), `MinFunc cmp x [] = x` and `MaxFunc cmp x [] = x` for every `cmp`,
and the result is the same whatever `cmp` is (it is not consulted). -/
theorem empty_ys_returns_x {T : Type} (o : Ordered T) (cmp cmp2 : T → T → Int)
    (x : T) :
    Min o x [] = x ∧ Max o x [] = x ∧
    MinFunc cmp x [] = x ∧ MaxFunc cmp x [] = x ∧
    MinFunc cmp x [] = MinFunc cmp2 x [] ∧ MaxFunc cmp x [] = MaxFunc cmp2 x [] ∧
    Min float64Ordered Float64.nan [] = Float64.nan ∧
    Max float64Ordered Float64.nan [] = Float64.nan :=
  ⟨rfl, rfl, rfl, rfl, rfl, rfl, rfl, rfl⟩

/-! ## The scan of MinFunc and MaxFunc -/

/-- C14: `MinFunc` scans left to right and replaces only on strict improvement,
for any `cmp`: `MinFunc cmp x (ys ++ [y])` is `y` if
`cmp y (MinFunc cmp x ys) < 0` and `MinFunc cmp x ys` otherwise, in particular
when `cmp y (MinFunc cmp x ys) = 0`. -/
theorem MinFunc_scan_step {T : Type} (cmp : T → T → Int) (x : T) (ys : List T)
    (y : T) :
    MinFunc cmp x (ys ++ [y]) =
      (if cmp y (MinFunc cmp x ys) < 0 then y else MinFunc cmp x ys) ∧
    (cmp y (MinFunc cmp x ys) = 0 → MinFunc cmp x (ys ++ [y]) = MinFunc cmp x ys) := by
  refine ⟨MinFunc_snoc cmp x ys y, fun h => ?_⟩
  rw [MinFunc_snoc, if_neg (by omega)]

/-- C15: for a comparator whose sign is antisymmetric (`cmp a b > 0` exactly if
`cmp b a < 0`), `MaxFunc cmp x ys` is `MinFunc` of the comparator with its
arguments swapped. -/
theorem MaxFunc_eq_MinFunc_swapped {T : Type} (cmp : T → T → Int)
    (h : ∀ a b, cmp a b > 0 ↔ cmp b a < 0) (x : T) (ys : List T) :
    MaxFunc cmp x ys = MinFunc (fun a b => cmp b a) x ys :=
  MaxFunc_eq_MinFunc_flip cmp (fun a b => (h b a).symm) x ys

/-- Witness of C15 on the data of the test. -/
theorem MaxFunc_eq_MinFunc_swapped_witness :
    (∀ a b, cmpFirst a b > 0 ↔ cmpFirst b a < 0) ∧
    MaxFunc cmpFirst (1, "a") [(2, "a"), (1, "b"), (2, "b")] =
      MinFunc (fun a b => cmpFirst b a) (1, "a") [(2, "a"), (1, "b"), (2, "b")] :=
  ⟨fun a b => by unfold cmpFirst; omega,
   MaxFunc_eq_MinFunc_swapped cmpFirst (fun a b => by unfold cmpFirst; omega)
     (1, "a") [(2, "a"), (1, "b"), (2, "b")]⟩

/-- C16: no value is invented: for any function `cmp` at all, `MinFunc cmp x ys`
and `MaxFunc cmp x ys` are each `x` or an element of `ys`. -/
theorem MinFunc_MaxFunc_select {T : Type} (cmp : T → T → Int) (x : T)
    (ys : List T) :
    (MinFunc cmp x ys = x ∨ MinFunc cmp x ys ∈ ys) ∧
    (MaxFunc cmp x ys = x ∨ MaxFunc cmp x ys ∈ ys) :=
  ⟨MinFunc_sel cmp x ys, MaxFunc_sel cmp x ys⟩

/-! ## The test's subtraction comparator on machine integers -/

/-- C13, as stated, fails: on the Go `int` values `x = 1` and `ys = [-2^63]` the
subtraction `-2^63 - 1` wraps to `2^63 - 1 > 0`, so `MinFunc intCmp` keeps 1
while `Min` returns `-2^63`, and `MaxFunc intCmp` returns `-2^63` while `Max`
returns 1. -/
theorem intCmp_overflow_counterexample :
    isInt64 1 ∧ isInt64 (-9223372036854775808) ∧
    intCmp (-9223372036854775808) 1 = 9223372036854775807 ∧
    MinFunc intCmp 1 [-9223372036854775808] = 1 ∧
    Min (linearOrdered Int) 1 [-9223372036854775808] = -9223372036854775808 ∧
    MinFunc intCmp 1 [-9223372036854775808] ≠
      Min (linearOrdered Int) 1 [-9223372036854775808] ∧
    MaxFunc intCmp 1 [-9223372036854775808] = -9223372036854775808 ∧
    Max (linearOrdered Int) 1 [-9223372036854775808] = 1 ∧
    MaxFunc intCmp 1 [-9223372036854775808] ≠
      Max (linearOrdered Int) 1 [-9223372036854775808] :=
  ⟨⟨by decide, by decide⟩, ⟨by decide, by decide⟩, by decide, by decide, by decide,
   by decide, by decide, by decide, by decide⟩

/-- C13, amended: when no difference `a - b` of two of the values `x, ys...`
overflows (it lies in `[-2^63, 2^63)`), the wrapping comparator
`intCmp x y = x - y` makes `MinFunc` agree with `Min` and `MaxFunc` agree with
`Max`. -/
theorem intCmp_agrees_without_overflow (x : Int) (ys : List Int)
    (h : ∀ a ∈ x :: ys, ∀ b ∈ x :: ys, isInt64 (a - b)) :
    MinFunc intCmp x ys = Min (linearOrdered Int) x ys ∧
    MaxFunc intCmp x ys = Max (linearOrdered Int) x ys := by
  constructor
  · rw [MinFunc_congr intCmp (fun a b => a - b) x ys (fun a ha b hb => by
      show wrapInt64 (a - b) < 0 ↔ a - b < 0
      rw [wrapInt64_of_isInt64 _ (h a ha b hb)])]
    exact MinFunc_eq_Min_linearOrdered (fun a b => a - b)
      (fun a b => by show a - b < 0 ↔ a < b; omega) x ys
  · rw [MaxFunc_congr intCmp (fun a b => a - b) x ys (fun a ha b hb => by
      show wrapInt64 (a - b) > 0 ↔ a - b > 0
      rw [wrapInt64_of_isInt64 _ (h a ha b hb)])]
    exact MaxFunc_eq_Max_linearOrdered (fun a b => a - b)
      (fun a b => by show a - b > 0 ↔ a > b; omega) x ys

/-- Witness of the amended C13 on a row of the test, `{0, 2, -9}`. -/
theorem intCmp_agrees_without_overflow_witness :
    (∀ a ∈ (0 : Int) :: [2, -9], ∀ b ∈ (0 : Int) :: [2, -9], isInt64 (a - b)) ∧
    MinFunc intCmp 0 [2, -9] = -9 ∧
    MinFunc intCmp 0 [2, -9] = Min (linearOrdered Int) 0 [2, -9] ∧
    MaxFunc intCmp 0 [2, -9] = Max (linearOrdered Int) 0 [2, -9] :=
  ⟨by unfold isInt64; decide, by decide,
   intCmp_agrees_without_overflow 0 [2, -9] (by unfold isInt64; decide)⟩

/-! ## The helpers min, max and isNaN -/

/-- C17 at its failing input: on negative zero and positive zero the helper
`min` returns its second operand, positive zero, where the predeclared `min`
returns negative zero; with the operands in the other order both return
negative zero. -/
theorem min_negZero_posZero :
    min float64Ordered Float64.negZero (Float64.num 0) = Float64.num 0 ∧
    predeclaredMin Float64.negZero (Float64.num 0) = Float64.negZero ∧
    min float64Ordered Float64.negZero (Float64.num 0) ≠
      predeclaredMin Float64.negZero (Float64.num 0) ∧
    min float64Ordered (Float64.num 0) Float64.negZero = Float64.negZero ∧
    predeclaredMin (Float64.num 0) Float64.negZero = Float64.negZero :=
  ⟨by decide, by decide, by decide, by decide, by decide⟩

/-- C18: on a type whose equality is reflexive (`x != x` is never true),
`isNaN x` is false, `min x y` is `x` if `x < y` and `y` otherwise, and
`max x y` is `x` if `x > y` and `y` otherwise. -/
theorem isNaN_false_of_reflexive {T : Type} (o : Ordered T)
    (hrefl : ∀ a : T, o.ne a a = false) (x y : T) :
    isNaN o x = false ∧
    min o x y = (if o.lt x y = true then x else y) ∧
    max o x y = (if o.gt x y = true then x else y) := by
  have hx : isNaN o x = false := hrefl x
  refine ⟨hx, ?_, ?_⟩
  · unfold min
    rw [hx, Bool.or_false]
  · unfold max
    rw [hx, Bool.or_false]

/-- Witness of C18 on the integers and on the strings. -/
theorem isNaN_false_of_reflexive_witness :
    (∀ a : Int, (linearOrdered Int).ne a a = false) ∧
    (∀ a : String, (linearOrdered String).ne a a = false) ∧
    (isNaN (linearOrdered Int) 2 = false ∧
      min (linearOrdered Int) 2 1 =
        (if (linearOrdered Int).lt 2 1 = true then 2 else 1) ∧
      max (linearOrdered Int) 2 1 =
        (if (linearOrdered Int).gt 2 1 = true then 2 else 1)) ∧
    min (linearOrdered Int) 2 1 = 1 ∧ max (linearOrdered Int) 2 1 = 2 :=
  ⟨fun a => by simp [linearOrdered], fun a => by simp [linearOrdered],
   isNaN_false_of_reflexive (linearOrdered Int) (fun a => by simp [linearOrdered]) 2 1,
   by decide, by decide⟩

end Cmp
